import Mathlib

/-!
Verification of the NodeModal component
(`src/features/modals/NodeModal/index.tsx`).

The file embeds:
* a JSON value type `JValue` (documents and draft values);
* the two pure helpers of the source, `normalizeNodeData` and
  `jsonPathToString`, together with models of the JavaScript built-ins
  they rely on (`JSON.stringify(·, null, 2)` and template-literal string
  coercion);
* the path-addressed document patcher (`getAt` / `patch`), modelled from
  the specification since the `jsonc-parser` library is an external
  collaborator, at the JSON-value level;
* the edit-session state machine of the component (`handleEdit`,
  `handleCancel`, `handleSave`, the node-change/reopen effect and the
  close handler) as explicit state transformers over the modal state and
  the two shared stores.
-/

/-- JSON values.  JavaScript numbers are restricted to integers, which is
all the claims and the graph rows exercise. -/
inductive JValue where
  | null : JValue
  | bool (b : Bool) : JValue
  | num (n : Int) : JValue
  | str (s : String) : JValue
  | arr (xs : List JValue) : JValue
  | obj (es : List (String × JValue)) : JValue
deriving Repr

/-- A path segment: JSON paths are sequences of string keys or numeric
array indices (`string | number` in the source's `NodeData["path"]`). -/
inductive Seg where
  | key (s : String) : Seg
  | idx (n : Nat) : Seg
deriving Repr, DecidableEq

/-- One row of a node's `text`: an optional key, a value, and an optional
type tag (`"number"`, `"string"`, `"array"`, `"object"`, ...). -/
structure Row where
  key : Option String
  value : JValue
  type : Option String

/-- The fields of `NodeData` used by the component: the `path` locating
the node in the document and the `text` rows. Both are optional in the
source type. -/
structure NodeData where
  path : Option (List Seg)
  text : Option (List Row)

/-- JavaScript truthiness of `row.key`: `undefined` and the empty string
are falsy (`if (row.key)` at line 19 of the source). -/
def truthyKey (r : Row) : Bool :=
  match r.key with
  | none => false
  | some s => s ≠ ""

/-- Four-bit hexadecimal digit, for control-character escapes. -/
def hexDigit (n : Nat) : Char :=
  if n < 10 then Char.ofNat (48 + n) else Char.ofNat (87 + n)

/-- JSON escaping of a single character, as `JSON.stringify` performs on
string values. -/
def jsonEscapeChar (c : Char) : String :=
  if c = '"' then "\\\""
  else if c = '\\' then "\\\\"
  else if c = '\n' then "\\n"
  else if c = '\t' then "\\t"
  else if c = '\r' then "\\r"
  else if c = '\x08' then "\\b"
  else if c = '\x0c' then "\\f"
  else if c.toNat < 32 then
    "\\u00" ++ String.singleton (hexDigit (c.toNat / 16))
      ++ String.singleton (hexDigit (c.toNat % 16))
  else String.singleton c

/-- JSON escaping of a string's characters. -/
def jsonEscape (s : String) : String :=
  String.join (s.data.map jsonEscapeChar)

/-- A JSON string literal: quotes around the escaped characters. -/
def quoteJson (s : String) : String :=
  "\"" ++ jsonEscape s ++ "\""

/-- A run of `n` spaces. -/
def spaces (n : Nat) : String :=
  String.mk (List.replicate n ' ')

mutual

/-- Model of `JSON.stringify(v, null, 2)` at indentation level `ind`:
2-space indented pretty-printing. -/
def stringifyVal (ind : Nat) : JValue → String
  | .null => "null"
  | .bool true => "true"
  | .bool false => "false"
  | .num n => toString n
  | .str s => quoteJson s
  | .arr xs =>
      if xs.isEmpty then "[]"
      else "[\n" ++ stringifyArr (ind + 2) xs ++ "\n" ++ spaces ind ++ "]"
  | .obj es =>
      if es.isEmpty then "\x7b\x7d"
      else "\x7b\n" ++ stringifyObj (ind + 2) es ++ "\n" ++ spaces ind ++ "\x7d"

/-- Array body: one element per line, comma separated. -/
def stringifyArr (ind : Nat) : List JValue → String
  | [] => ""
  | [x] => spaces ind ++ stringifyVal ind x
  | x :: y :: ys => spaces ind ++ stringifyVal ind x ++ ",\n" ++ stringifyArr ind (y :: ys)

/-- Object body: one `"key": value` entry per line, comma separated. -/
def stringifyObj (ind : Nat) : List (String × JValue) → String
  | [] => ""
  | [(k, v)] => spaces ind ++ quoteJson k ++ ": " ++ stringifyVal ind v
  | (k, v) :: f :: fs => spaces ind ++ quoteJson k ++ ": " ++ stringifyVal ind v
      ++ ",\n" ++ stringifyObj ind (f :: fs)

end

mutual

/-- Model of JavaScript template-literal coercion of a value to a string,
as in the source's backtick interpolation of `nodeRows[0].value` at line
14: strings render verbatim, numbers in decimal, `null` as `"null"`,
arrays join their elements with commas (with `null` elements rendered
empty), objects as `"[object Object]"`. -/
def displayString : JValue → String
  | .null => "null"
  | .bool true => "true"
  | .bool false => "false"
  | .num n => toString n
  | .str s => s
  | .arr xs => displayArr xs
  | .obj _ => "[object Object]"

/-- Array coercion body (`Array.prototype.toString`): elements joined by
commas, `null` elements rendered empty. -/
def displayArr : List JValue → String
  | [] => ""
  | [.null] => ""
  | [x] => displayString x
  | .null :: y :: ys => "," ++ displayArr (y :: ys)
  | x :: y :: ys => displayString x ++ "," ++ displayArr (y :: ys)

end

/-- JavaScript object-literal assignment `obj[k] = v` over an
insertion-ordered entry list: a later assignment to an existing key
overwrites the value but keeps the key's original position. -/
def upsert (k : String) (v : JValue) : List (String × JValue) → List (String × JValue)
  | [] => [(k, v)]
  | (k', v') :: rest =>
      if k' = k then (k, v) :: rest else (k', v') :: upsert k v rest

/-- The entries accumulated by the `forEach` loop of `normalizeNodeData`
(lines 16-21 of the source): rows whose type is not `array`/`object` and
whose key is truthy are assigned into the object in order. -/
def buildEntries (rows : List Row) : List (String × JValue) :=
  rows.foldl
    (fun acc row =>
      if row.type ≠ some "array" ∧ row.type ≠ some "object" then
        if truthyKey row then upsert (row.key.getD "") row.value acc else acc
      else acc)
    []

/-- Embedding of `normalizeNodeData` (lines 12-23 of the source):
empty or undefined rows give `"\x7b\x7d"`; a single keyless row gives the
template-literal coercion of its value; otherwise the flat object built
by `buildEntries` is pretty-printed with 2-space indentation. -/
def normalizeNodeData (nodeRows : Option (List Row)) : String :=
  match nodeRows with
  | none => "\x7b\x7d"
  | some [] => "\x7b\x7d"
  | some (r :: rest) =>
    if rest.isEmpty ∧ ¬ truthyKey r then displayString r.value
    else stringifyVal 0 (.obj (buildEntries (r :: rest)))

/-- Rendering of one path segment inside its brackets (line 28 of the
source): numbers in decimal, strings quoted with no escaping of embedded
quote characters. -/
def segString : Seg → String
  | .idx n => toString n
  | .key s => "\"" ++ s ++ "\""

/-- Embedding of `jsonPathToString` (lines 26-30 of the source): empty or
undefined paths give `"$"`, otherwise the segments are joined with `"]["`
between `"$["` and `"]"`. -/
def jsonPathToString (path : Option (List Seg)) : String :=
  match path with
  | none => "$"
  | some p =>
    if p.length = 0 then "$"
    else "$[" ++ String.intercalate "][" (p.map segString) ++ "]"

/-- Lookup of a key in an insertion-ordered entry list (JavaScript object
property access; keys of a parsed object are unique, so first match). -/
def lookupEntry (k : String) : List (String × JValue) → Option JValue
  | [] => none
  | (k', v) :: rest => if k' = k then some v else lookupEntry k rest

/-- Replace the value stored at key `k` (first occurrence), keeping the
entry's position. -/
def replaceEntry (k : String) (v : JValue) : List (String × JValue) → List (String × JValue)
  | [] => []
  | (k', v') :: rest =>
      if k' = k then (k', v) :: rest else (k', v') :: replaceEntry k v rest

/-- Modelled from the spec: reading the value a path addresses in a
document (§4.3 "the path does not address a valid location", §8
"re-reading that path").  The reading side of the external `jsonc-parser`
collaborator is not part of this repository. -/
def getAt : JValue → List Seg → Option JValue
  | v, [] => some v
  | .obj es, .key k :: rest =>
      match lookupEntry k es with
      | some child => getAt child rest
      | none => none
  | .arr xs, .idx n :: rest =>
      match xs[n]? with
      | some child => getAt child rest
      | none => none
  | _, _ :: _ => none

/-- Whether a JSON value is a scalar (not an array or object). -/
def isScalar : JValue → Bool
  | .arr _ => false
  | .obj _ => false
  | _ => true

/-- Modelled from the spec: the DocumentPatcher contract of §4.3 and §9,
`applyPathEdit(document, path, value) -> document | PatchError`, at the
JSON-value level.  The external `jsonc-parser` `modify`/`applyEdits` pair
used at lines 74-75 of the source is not part of this repository; per the
spec it replaces the value at `path` and fails with a `PatchError` when
the path does not address a valid location in the document.  Its
text-level formatting preservation is outside this model. -/
def patch : JValue → List Seg → JValue → Except String JValue
  | _, [], v => .ok v
  | .obj es, .key k :: rest, v =>
      match lookupEntry k es with
      | some child =>
          match patch child rest v with
          | .ok child2 => .ok (.obj (replaceEntry k child2 es))
          | .error e => .error e
      | none => .error "PatchError: no object property at path"
  | .arr xs, .idx n :: rest, v =>
      match xs[n]? with
      | some child =>
          match patch child rest v with
          | .ok child2 => .ok (.arr (xs.set n child2))
          | .error e => .error e
      | none => .error "PatchError: array index out of range"
  | _, _ :: _, _ => .error "PatchError: path does not address a location"

/-- The component's local React state (lines 38-40 of the source),
together with the dialog's `opened` flag.  `opened` is owned by the
parent, which closes the dialog when the `onClose` prop is invoked; it is
folded into the modal state here. -/
structure ModalState where
  editing : Bool
  value : String
  error : Option String
  opened : Bool

/-- Modelled from the spec: the two external stores (§6).  `useJson`
holds the shared document, `useFile` the companion file contents and its
unsaved-changes flag; neither store's definition is part of this
excerpt.  The document is carried at the JSON-value level, matching the
patcher model. -/
structure Stores where
  json : JValue
  fileContents : JValue
  hasChanges : Bool

/-- The whole observable state the component can touch: its own modal
state and the shared stores. -/
structure World where
  modal : ModalState
  stores : Stores

/-- Lines 63-70 of the source: `JSON.parse` the draft, and on a parse
failure fall back to the raw string.  `JP` abstracts the external
`JSON.parse` built-in, returning `none` when parsing throws. -/
def resolveDraft (JP : String → Option JValue) (s : String) : JValue :=
  match JP s with
  | some v => v
  | none => .str s

/-- Embedding of `handleEdit` (lines 48-50): flip into editing mode. -/
def handleEdit (w : World) : World :=
  { w with modal := { w.modal with editing := true } }

/-- Embedding of `handleCancel` (lines 52-56): leave editing mode, clear
the error, and recompute the draft from the selected node's rows
(`normalizeNodeData(nodeData?.text ?? [])`). -/
def handleCancel (nd : Option NodeData) (w : World) : World :=
  { w with modal := { w.modal with
      editing := false,
      error := none,
      value := normalizeNodeData (some ((nd.bind NodeData.text).getD [])) } }

/-- Embedding of the `React.useEffect` of lines 42-46, which runs when
the selected node or the `opened` flag changes: reset to viewing mode,
clear the error, recompute the draft text. -/
def modalResetEffect (nd : Option NodeData) (w : World) : World :=
  { w with modal := { w.modal with
      editing := false,
      error := none,
      value := normalizeNodeData (some ((nd.bind NodeData.text).getD [])) } }

/-- Embedding of the close handler (lines 89 and 111 of the source):
`onClose()` closes the dialog, then `handleCancel()` runs. -/
def handleClose (nd : Option NodeData) (w : World) : World :=
  handleCancel nd { w with modal := { w.modal with opened := false } }

/-- Embedding of `handleSave` (lines 58-86).  `JP` abstracts the external
`JSON.parse`.  With no selected node the handler returns immediately.
Otherwise the draft is resolved (parse or raw-string fallback) and the
document is patched at the node's path (`nodeData.path ?? []`).  On
success the shared document and the file contents are replaced by the
patched document, the unsaved-changes flag is cleared, editing ends and
`onClose()` closes the dialog.  On failure only the error message is
set. -/
def handleSave (JP : String → Option JValue) (nd : Option NodeData) (w : World) : World :=
  match nd with
  | none => w
  | some node =>
    let originalJson := w.stores.json
    let parsed := resolveDraft JP w.modal.value
    let path := node.path.getD []
    match patch originalJson path parsed with
    | .ok newJson =>
        { modal := { w.modal with editing := false, opened := false },
          stores := { json := newJson, fileContents := newJson, hasChanges := false } }
    | .error msg => { w with modal := { w.modal with error := some msg } }

/-! ## Helper lemmas -/

theorem lookupEntry_replaceEntry (k : String) (v : JValue) (es : List (String × JValue)) :
    lookupEntry k (replaceEntry k v es) = (lookupEntry k es).map fun _ => v := by
  induction es with
  | nil => simp [lookupEntry, replaceEntry]
  | cons e rest ih =>
    obtain ⟨k', v'⟩ := e
    by_cases h : k' = k <;> simp [lookupEntry, replaceEntry, h, ih]

theorem patch_ok_of_getAt (p : List Seg) (v : JValue) :
    ∀ D s : JValue, getAt D p = some s →
      ∃ D2, patch D p v = Except.ok D2 ∧ getAt D2 p = some v := by
  induction p with
  | nil => intro D s _; exact ⟨v, by simp [patch], by simp [getAt]⟩
  | cons seg rest ih =>
    intro D s h
    match seg, D with
    | .key k, .obj es =>
      cases hlk : lookupEntry k es with
      | none => simp [getAt, hlk] at h
      | some child =>
        simp only [getAt, hlk] at h
        obtain ⟨c2, hp, hg⟩ := ih child s h
        refine ⟨.obj (replaceEntry k c2 es), ?_, ?_⟩
        · simp [patch, hlk, hp]
        · simp [getAt, lookupEntry_replaceEntry, hlk, hg]
    | .idx n, .arr xs =>
      cases hx : xs[n]? with
      | none => simp [getAt, hx] at h
      | some child =>
        simp only [getAt, hx] at h
        obtain ⟨c2, hp, hg⟩ := ih child s h
        have hlt : n < xs.length := (List.getElem?_eq_some.mp hx).1
        refine ⟨.arr (xs.set n c2), ?_, ?_⟩
        · simp [patch, hx, hp]
        · have : (xs.set n c2)[n]? = some c2 :=
            List.getElem?_set_eq_of_lt c2 hlt
          simp [getAt, this, hg]
    | .key k, .null => simp [getAt] at h
    | .key k, .bool b => simp [getAt] at h
    | .key k, .num m => simp [getAt] at h
    | .key k, .str t => simp [getAt] at h
    | .key k, .arr xs => simp [getAt] at h
    | .idx n, .null => simp [getAt] at h
    | .idx n, .bool b => simp [getAt] at h
    | .idx n, .num m => simp [getAt] at h
    | .idx n, .str t => simp [getAt] at h
    | .idx n, .obj es => simp [getAt] at h

theorem patch_error_of_getAt_none (p : List Seg) (v : JValue) :
    ∀ D : JValue, getAt D p = none → ∃ e, patch D p v = Except.error e := by
  induction p with
  | nil => intro D h; simp [getAt] at h
  | cons seg rest ih =>
    intro D h
    match seg, D with
    | .key k, .obj es =>
      cases hlk : lookupEntry k es with
      | none => exact ⟨"PatchError: no object property at path", by simp [patch, hlk]⟩
      | some child =>
        simp only [getAt, hlk] at h
        obtain ⟨e, hp⟩ := ih child h
        exact ⟨e, by simp [patch, hlk, hp]⟩
    | .idx n, .arr xs =>
      cases hx : xs[n]? with
      | none => exact ⟨"PatchError: array index out of range", by simp [patch, hx]⟩
      | some child =>
        simp only [getAt, hx] at h
        obtain ⟨e, hp⟩ := ih child h
        exact ⟨e, by simp [patch, hx, hp]⟩
    | .key k, .null => exact ⟨"PatchError: path does not address a location", by simp [patch]⟩
    | .key k, .bool b => exact ⟨"PatchError: path does not address a location", by simp [patch]⟩
    | .key k, .num m => exact ⟨"PatchError: path does not address a location", by simp [patch]⟩
    | .key k, .str t => exact ⟨"PatchError: path does not address a location", by simp [patch]⟩
    | .key k, .arr xs => exact ⟨"PatchError: path does not address a location", by simp [patch]⟩
    | .idx n, .null => exact ⟨"PatchError: path does not address a location", by simp [patch]⟩
    | .idx n, .bool b => exact ⟨"PatchError: path does not address a location", by simp [patch]⟩
    | .idx n, .num m => exact ⟨"PatchError: path does not address a location", by simp [patch]⟩
    | .idx n, .str t => exact ⟨"PatchError: path does not address a location", by simp [patch]⟩
    | .idx n, .obj es => exact ⟨"PatchError: path does not address a location", by simp [patch]⟩

/-! ## Claim theorems -/

/-- C3: for every document `D`, every path `p` addressing a scalar in `D`,
and every value `v`, patching `D` at `p` with `v` and then reading back
the value at path `p` in the resulting document yields `v`. -/
theorem patch_roundtrip (D : JValue) (p : List Seg) (v s : JValue)
    (h : getAt D p = some s) (_hs : isScalar s = true) :
    ∃ D2, patch D p v = Except.ok D2 ∧ getAt D2 p = some v :=
  patch_ok_of_getAt p v D s h

/-- Witness for C3: a concrete document, path and value. -/
theorem patch_roundtrip_witness :
    ∃ D2, patch (JValue.obj [("a", JValue.num 1)]) [Seg.key "a"] (JValue.num 7) = Except.ok D2 ∧
      getAt D2 [Seg.key "a"] = some (JValue.num 7) :=
  patch_roundtrip (JValue.obj [("a", JValue.num 1)]) [Seg.key "a"] (JValue.num 7)
    (JValue.num 1) rfl rfl

/-- C1: when the node's path no longer addresses an existing location in
the current document, save surfaces a `PatchError` as an inline error
message, stays in the `Editing` state, does not close the dialog, and
leaves the shared document (and file store) unchanged. -/
theorem handleSave_patchError_frame (JP : String → Option JValue) (nd : NodeData) (w : World)
    (hed : w.modal.editing = true)
    (h : getAt w.stores.json (nd.path.getD []) = none) :
    ∃ msg,
      (handleSave JP (some nd) w).modal.error = some msg ∧
      (handleSave JP (some nd) w).modal.editing = true ∧
      (handleSave JP (some nd) w).modal.opened = w.modal.opened ∧
      (handleSave JP (some nd) w).modal.value = w.modal.value ∧
      (handleSave JP (some nd) w).stores = w.stores := by
  obtain ⟨e, hp⟩ :=
    patch_error_of_getAt_none (nd.path.getD []) (resolveDraft JP w.modal.value) w.stores.json h
  exact ⟨e, by simp [handleSave, hp], by simp [handleSave, hp, hed],
    by simp [handleSave, hp], by simp [handleSave, hp], by simp [handleSave, hp]⟩

/-- Witness for C1: saving over an empty-object document with a path to a
missing key. -/
theorem handleSave_patchError_frame_witness :
    ∃ msg,
      (handleSave (fun _ => none) (some ⟨some [Seg.key "missing"], none⟩)
        ⟨⟨true, "draft", none, true⟩, ⟨JValue.obj [], JValue.obj [], false⟩⟩).modal.error
          = some msg ∧
      (handleSave (fun _ => none) (some ⟨some [Seg.key "missing"], none⟩)
        ⟨⟨true, "draft", none, true⟩, ⟨JValue.obj [], JValue.obj [], false⟩⟩).modal.editing
          = true ∧
      (handleSave (fun _ => none) (some ⟨some [Seg.key "missing"], none⟩)
        ⟨⟨true, "draft", none, true⟩, ⟨JValue.obj [], JValue.obj [], false⟩⟩).modal.opened
          = (⟨⟨true, "draft", none, true⟩,
              ⟨JValue.obj [], JValue.obj [], false⟩⟩ : World).modal.opened ∧
      (handleSave (fun _ => none) (some ⟨some [Seg.key "missing"], none⟩)
        ⟨⟨true, "draft", none, true⟩, ⟨JValue.obj [], JValue.obj [], false⟩⟩).modal.value
          = (⟨⟨true, "draft", none, true⟩,
              ⟨JValue.obj [], JValue.obj [], false⟩⟩ : World).modal.value ∧
      (handleSave (fun _ => none) (some ⟨some [Seg.key "missing"], none⟩)
        ⟨⟨true, "draft", none, true⟩, ⟨JValue.obj [], JValue.obj [], false⟩⟩).stores
          = (⟨⟨true, "draft", none, true⟩,
              ⟨JValue.obj [], JValue.obj [], false⟩⟩ : World).stores :=
  handleSave_patchError_frame (fun _ => none) ⟨some [Seg.key "missing"], none⟩
    ⟨⟨true, "draft", none, true⟩, ⟨JValue.obj [], JValue.obj [], false⟩⟩ rfl rfl

/-- C2: when the draft text fails to parse as JSON, the raw draft string
itself is the value written at the node's path (reading it back yields
that string), and the save runs to completion: the stores take the
patched document, editing ends and the dialog closes. -/
theorem handleSave_parseFallback (JP : String → Option JValue) (nd : NodeData) (w : World)
    (s0 : JValue) (hparse : JP w.modal.value = none)
    (hpath : getAt w.stores.json (nd.path.getD []) = some s0) :
    ∃ D2,
      patch w.stores.json (nd.path.getD []) (JValue.str w.modal.value) = Except.ok D2 ∧
      getAt D2 (nd.path.getD []) = some (JValue.str w.modal.value) ∧
      handleSave JP (some nd) w =
        { modal := { w.modal with editing := false, opened := false },
          stores := { json := D2, fileContents := D2, hasChanges := false } } := by
  obtain ⟨D2, hp, hg⟩ :=
    patch_ok_of_getAt (nd.path.getD []) (JValue.str w.modal.value) w.stores.json s0 hpath
  have hrd : resolveDraft JP w.modal.value = JValue.str w.modal.value := by
    simp [resolveDraft, hparse]
  exact ⟨D2, hp, hg, by simp [handleSave, hrd, hp]⟩

/-- Witness for C2: editing the number `42` to the unparsable text `abc`
stores the string `"abc"`. -/
theorem handleSave_parseFallback_witness :
    ∃ D2,
      patch (JValue.obj [("k", JValue.num 42)]) [Seg.key "k"] (JValue.str "abc")
        = Except.ok D2 ∧
      getAt D2 [Seg.key "k"] = some (JValue.str "abc") ∧
      handleSave (fun _ => none) (some ⟨some [Seg.key "k"], none⟩)
        ⟨⟨true, "abc", none, true⟩, ⟨JValue.obj [("k", JValue.num 42)],
          JValue.obj [("k", JValue.num 42)], true⟩⟩ =
        { modal := ⟨false, "abc", none, false⟩,
          stores := { json := D2, fileContents := D2, hasChanges := false } } :=
  handleSave_parseFallback (fun _ => none) ⟨some [Seg.key "k"], none⟩
    ⟨⟨true, "abc", none, true⟩, ⟨JValue.obj [("k", JValue.num 42)],
      JValue.obj [("k", JValue.num 42)], true⟩⟩ (JValue.num 42) rfl rfl

/-- C10: with no selected node, save is a no-op: the whole world (both
stores, the editing flag, the error, the draft text and the open flag) is
returned unchanged. -/
theorem handleSave_noSelectedNode (JP : String → Option JValue) (w : World) :
    handleSave JP none w = w := rfl

/-- C7: cancel always returns to viewing mode, clears the error, restores
the draft to the normalized text of the currently selected node, and
touches nothing else, whatever was typed. -/
theorem handleCancel_restores (nd : Option NodeData) (w : World) :
    (handleCancel nd w).modal.editing = false ∧
    (handleCancel nd w).modal.error = none ∧
    (handleCancel nd w).modal.value
      = normalizeNodeData (some ((nd.bind NodeData.text).getD [])) ∧
    (handleCancel nd w).modal.opened = w.modal.opened ∧
    (handleCancel nd w).stores = w.stores :=
  ⟨rfl, rfl, rfl, rfl, rfl⟩

/-- C8: on node-selection change or dialog reopen, from either state the
session resets to viewing, clears the error and recomputes the draft from
the (possibly new) node's rows. -/
theorem modalResetEffect_resets (nd : Option NodeData) (w : World) :
    (modalResetEffect nd w).modal.editing = false ∧
    (modalResetEffect nd w).modal.error = none ∧
    (modalResetEffect nd w).modal.value
      = normalizeNodeData (some ((nd.bind NodeData.text).getD [])) :=
  ⟨rfl, rfl, rfl⟩

/-- C6: the shared document store and the file-contents store are mutated
only by a successful save; edit, cancel, close, the reset effect, a save
with no node, and a failed save leave them unchanged, while a successful
save replaces both with the patched document and clears the
unsaved-changes flag. -/
theorem stores_mutated_only_by_save (JP : String → Option JValue) (nd : Option NodeData)
    (node : NodeData) (w : World) :
    (handleEdit w).stores = w.stores ∧
    (handleCancel nd w).stores = w.stores ∧
    (handleClose nd w).stores = w.stores ∧
    (modalResetEffect nd w).stores = w.stores ∧
    (handleSave JP none w).stores = w.stores ∧
    (∀ e, patch w.stores.json (node.path.getD []) (resolveDraft JP w.modal.value)
        = Except.error e →
      (handleSave JP (some node) w).stores = w.stores) ∧
    (∀ D2, patch w.stores.json (node.path.getD []) (resolveDraft JP w.modal.value)
        = Except.ok D2 →
      (handleSave JP (some node) w).stores = ⟨D2, D2, false⟩) := by
  refine ⟨rfl, rfl, rfl, rfl, rfl, ?_, ?_⟩
  · intro e hp; simp [handleSave, hp]
  · intro D2 hp; simp [handleSave, hp]

/-- Witness for C6: a failed save and a successful save at concrete
inputs, via the two conditional conjuncts. -/
theorem stores_mutated_only_by_save_witness :
    (handleSave (fun _ => none) (some ⟨some [Seg.key "zz"], none⟩)
      ⟨⟨true, "d", none, true⟩, ⟨JValue.obj [], JValue.obj [], false⟩⟩).stores
      = (⟨⟨true, "d", none, true⟩,
          ⟨JValue.obj [], JValue.obj [], false⟩⟩ : World).stores ∧
    (handleSave (fun _ => none) (some ⟨some [Seg.key "k"], none⟩)
      ⟨⟨true, "abc", none, true⟩, ⟨JValue.obj [("k", JValue.num 42)],
        JValue.obj [("k", JValue.num 42)], true⟩⟩).stores
      = ⟨JValue.obj [("k", JValue.str "abc")], JValue.obj [("k", JValue.str "abc")], false⟩ :=
  ⟨(stores_mutated_only_by_save (fun _ => none) none ⟨some [Seg.key "zz"], none⟩
      ⟨⟨true, "d", none, true⟩, ⟨JValue.obj [], JValue.obj [], false⟩⟩).2.2.2.2.2.1
      "PatchError: no object property at path" rfl,
   (stores_mutated_only_by_save (fun _ => none) none ⟨some [Seg.key "k"], none⟩
      ⟨⟨true, "abc", none, true⟩, ⟨JValue.obj [("k", JValue.num 42)],
        JValue.obj [("k", JValue.num 42)], true⟩⟩).2.2.2.2.2.2
      (JValue.obj [("k", JValue.str "abc")]) rfl⟩

theorem string_eq_of_data {a b : String} (h : a.data = b.data) : a = b := by
  cases a; cases b; exact congrArg String.mk h

theorem strAppend_assoc (a b c : String) : a ++ b ++ c = a ++ (b ++ c) :=
  string_eq_of_data (by simp [List.append_assoc])

theorem data_foldr_append (l : List String) :
    ((l.foldr (fun a b => a ++ b) "").data) = l.foldr (fun a b => a.data ++ b) [] := by
  induction l with
  | nil => rfl
  | cons x xs ih => simp [List.foldr_cons, ih]

theorem dataBrack : ("][" : String).data = ("]" : String).data ++ ("[" : String).data := rfl

theorem dataDollar : ("$[" : String).data = ("$" : String).data ++ ("[" : String).data := rfl

theorem intercalate_go_foldr (as : List String) :
    ∀ acc : String, String.intercalate.go acc "][" as ++ "]" =
      acc ++ "]" ++ (as.map fun s => "[" ++ s ++ "]").foldr (fun a b => a ++ b) "" := by
  induction as with
  | nil =>
    intro acc
    apply string_eq_of_data
    rw [String.intercalate.go]
    simp [show ("" : String).data = [] from rfl]
  | cons a as ih =>
    intro acc
    rw [String.intercalate.go, ih (acc ++ "][" ++ a)]
    apply string_eq_of_data
    simp [dataBrack]

/-- C5: `jsonPathToString` maps an empty or undefined path to `"$"`;
otherwise it is `"$"` followed by one bracketed rendering per segment,
where an integer segment renders as its decimal numeral and a string
segment as the key between quote characters with no escaping of embedded
quotes, so `jsonPathToString (some [key "a", idx 0, key "b"])` is
`$["a"][0]["b"]`. -/
theorem jsonPathToString_spec :
    jsonPathToString none = "$" ∧
    jsonPathToString (some []) = "$" ∧
    (∀ p : List Seg, jsonPathToString (some p) =
      "$" ++ (p.map fun seg => "[" ++ segString seg ++ "]").foldr (fun a b => a ++ b) "") ∧
    (∀ s : String, segString (.key s) = "\"" ++ s ++ "\"") ∧
    (∀ n : Nat, segString (.idx n) = toString n) ∧
    jsonPathToString (some [.key "a", .idx 0, .key "b"]) = "$[\"a\"][0][\"b\"]" ∧
    jsonPathToString (some [.key "a\"b"]) = "$[\"a\"b\"]" := by
  refine ⟨rfl, rfl, ?_, fun s => rfl, fun n => rfl, rfl, rfl⟩
  intro p
  cases p with
  | nil =>
    apply string_eq_of_data
    simp [jsonPathToString, show ("" : String).data = [] from rfl]
  | cons x xs =>
    have hne : ¬ (x :: xs).length = 0 := by simp
    rw [jsonPathToString]
    rw [if_neg hne, List.map_cons, String.intercalate]
    rw [strAppend_assoc, intercalate_go_foldr ((xs.map segString)) (segString x)]
    apply string_eq_of_data
    simp only [dataDollar, List.map_map]
    rfl

theorem upsert_of_not_mem (k : String) (v : JValue) (acc : List (String × JValue))
    (h : ∀ e ∈ acc, e.1 ≠ k) : upsert k v acc = acc ++ [(k, v)] := by
  induction acc with
  | nil => rfl
  | cons e rest ih =>
    obtain ⟨k', v'⟩ := e
    have hk : ¬ k' = k := h (k', v') (by simp)
    simp only [upsert, if_neg hk, List.cons_append, List.cons.injEq, true_and]
    exact ih fun e he => h e (by simp [he])

theorem buildEntries_foldl_eq (rows : List Row) : ∀ acc : List (String × JValue),
    (∀ r ∈ rows, truthyKey r = true) →
    ((acc.map Prod.fst) ++ (rows.map fun r => r.key.getD "")).Nodup →
    rows.foldl
      (fun acc row =>
        if row.type ≠ some "array" ∧ row.type ≠ some "object" then
          if truthyKey row then upsert (row.key.getD "") row.value acc else acc
        else acc) acc
    = acc ++ (rows.filter fun r =>
        decide (r.type ≠ some "array") && decide (r.type ≠ some "object")).map
        (fun r => (r.key.getD "", r.value)) := by
  induction rows with
  | nil => intro acc _ _; simp
  | cons r rest ih =>
    intro acc hk hnd
    have htr : truthyKey r = true := hk r (by simp)
    have hkrest : ∀ q ∈ rest, truthyKey q = true := fun q hq => hk q (by simp [hq])
    by_cases ht : r.type ≠ some "array" ∧ r.type ≠ some "object"
    · have hnotin : ∀ e ∈ acc, e.1 ≠ r.key.getD "" := by
        intro e he heq
        rw [List.nodup_append] at hnd
        exact hnd.2.2 (List.mem_map_of_mem Prod.fst he) (by simp [heq])
      have hnd' : (((acc ++ [(r.key.getD "", r.value)]).map Prod.fst)
          ++ rest.map fun q => q.key.getD "").Nodup := by
        simpa [List.append_assoc] using hnd
      simp only [List.foldl_cons, if_pos ht, htr, if_true]
      rw [upsert_of_not_mem _ _ _ hnotin, ih (acc ++ [(r.key.getD "", r.value)]) hkrest hnd']
      simp [List.filter_cons, ht.1, ht.2, List.append_assoc]
    · have hnd' : ((acc.map Prod.fst) ++ rest.map fun q => q.key.getD "").Nodup := by
        refine List.Nodup.sublist ?_ hnd
        exact List.Sublist.append_left (List.sublist_cons_self _ _) _
      simp only [List.foldl_cons, if_neg ht]
      rw [ih acc hkrest hnd']
      have hcond : (decide (r.type ≠ some "array") && decide (r.type ≠ some "object")) = false := by
        rcases Decidable.not_and_iff_or_not.mp ht with h1 | h1 <;> simp [h1]
      rw [List.filter_cons, hcond]
      simp

/-- C4: `normalizeNodeData` maps empty or undefined rows to the empty
JSON object text; a single keyless row to the string coercion of its bare
value (so a single `5` row gives `"5"`); and otherwise, for rows with
distinct truthy keys, it pretty-prints with 2-space indentation the flat
object mapping each row's key to its value, excluding every row whose
type is `array` or `object` (as in the spec's example, where the
array-typed row `b` is excluded). -/
theorem normalizeNodeData_cases :
    normalizeNodeData none = "\x7b\x7d" ∧
    normalizeNodeData (some []) = "\x7b\x7d" ∧
    (∀ (v : JValue) (t : Option String),
      normalizeNodeData (some [⟨none, v, t⟩]) = displayString v) ∧
    normalizeNodeData (some [⟨none, JValue.num 5, none⟩]) = "5" ∧
    (∀ rows : List Row, rows ≠ [] →
      (∀ r ∈ rows, truthyKey r = true) →
      (rows.map fun r => r.key.getD "").Nodup →
      normalizeNodeData (some rows) =
        stringifyVal 0 (JValue.obj ((rows.filter fun r =>
          decide (r.type ≠ some "array") && decide (r.type ≠ some "object")).map
          fun r => (r.key.getD "", r.value)))) ∧
    normalizeNodeData (some [⟨some "a", JValue.num 1, some "number"⟩,
        ⟨some "b", JValue.arr [], some "array"⟩])
      = "\x7b\n  \"a\": 1\n\x7d" := by
  refine ⟨rfl, rfl, ?_, rfl, ?_, rfl⟩
  · intro v t
    simp [normalizeNodeData, truthyKey]
  · intro rows hne hk hnd
    obtain ⟨r, rest, rfl⟩ : ∃ r rest, rows = r :: rest := by
      cases rows with
      | nil => exact absurd rfl hne
      | cons a l => exact ⟨a, l, rfl⟩
    have htr : truthyKey r = true := hk r (by simp)
    have hcond : ¬ (rest.isEmpty ∧ ¬ truthyKey r) := by simp [htr]
    rw [normalizeNodeData, if_neg hcond]
    have hb : buildEntries (r :: rest) =
        [] ++ ((r :: rest).filter fun q =>
          decide (q.type ≠ some "array") && decide (q.type ≠ some "object")).map
          fun q => (q.key.getD "", q.value) := by
      rw [buildEntries]
      exact buildEntries_foldl_eq (r :: rest) [] hk (by simpa using hnd)
    rw [hb]
    simp

/-- Witness for C4: the multi-row conjunct at a single keyed scalar row. -/
theorem normalizeNodeData_cases_witness :
    normalizeNodeData (some [⟨some "a", JValue.num 1, some "number"⟩]) =
      stringifyVal 0 (JValue.obj ((([⟨some "a", JValue.num 1, some "number"⟩] : List Row).filter
        fun r => decide (r.type ≠ some "array") && decide (r.type ≠ some "object")).map
        fun r => (r.key.getD "", r.value))) :=
  normalizeNodeData_cases.2.2.2.2.1 [⟨some "a", JValue.num 1, some "number"⟩]
    (by simp)
    (by intro r hr; simp at hr; subst hr; rfl)
    (by simp)

theorem foldl_skip_falsyKey (rows : List Row) : ∀ acc : List (String × JValue),
    rows.foldl
      (fun acc row =>
        if row.type ≠ some "array" ∧ row.type ≠ some "object" then
          if truthyKey row then upsert (row.key.getD "") row.value acc else acc
        else acc) acc
    = (rows.filter fun r => truthyKey r).foldl
      (fun acc row =>
        if row.type ≠ some "array" ∧ row.type ≠ some "object" then
          if truthyKey row then upsert (row.key.getD "") row.value acc else acc
        else acc) acc := by
  induction rows with
  | nil => intro acc; rfl
  | cons r rest ih =>
    intro acc
    by_cases htr : truthyKey r = true
    · rw [List.filter_cons, htr]
      simp only [List.foldl_cons, if_true]
      exact ih _
    · have hf : truthyKey r = false := by simpa using htr
      rw [List.filter_cons, hf]
      simp only [List.foldl_cons, hf, if_false, ite_self, Bool.false_eq_true, if_neg]
      exact ih acc

/-- C9: in the multi-row case of `normalizeNodeData`, rows whose key is
absent or empty contribute nothing even when their type is scalar: the
accumulated entries equal those of the rows filtered to truthy keys, the
rendered text likewise, and concretely a scalar row with an empty-string
key is omitted from the output object. -/
theorem normalize_truthyKey_only :
    (∀ rows : List Row,
      buildEntries rows = buildEntries (rows.filter fun r => truthyKey r)) ∧
    (∀ (r : Row) (rest : List Row), rest.isEmpty = false ∨ truthyKey r = true →
      normalizeNodeData (some (r :: rest)) =
        stringifyVal 0 (JValue.obj (buildEntries
          ((r :: rest).filter fun row => truthyKey row)))) ∧
    normalizeNodeData (some [⟨some "", JValue.num 9, some "number"⟩,
        ⟨some "a", JValue.num 1, some "number"⟩])
      = "\x7b\n  \"a\": 1\n\x7d" := by
  refine ⟨?_, ?_, rfl⟩
  · intro rows
    rw [buildEntries, buildEntries, foldl_skip_falsyKey]
  · intro r rest h
    have hcond : ¬ (rest.isEmpty ∧ ¬ truthyKey r) := by
      rcases h with h | h <;> simp [h]
    rw [normalizeNodeData, if_neg hcond, buildEntries, buildEntries, foldl_skip_falsyKey]

/-- Witness for C9: a keyless scalar row in a two-row list is omitted. -/
theorem normalize_truthyKey_only_witness :
    normalizeNodeData (some [⟨none, JValue.num 9, some "number"⟩,
        ⟨some "a", JValue.num 1, some "number"⟩]) =
      stringifyVal 0 (JValue.obj (buildEntries
        (([⟨none, JValue.num 9, some "number"⟩,
           ⟨some "a", JValue.num 1, some "number"⟩] : List Row).filter
          fun row => truthyKey row))) :=
  normalize_truthyKey_only.2.1 ⟨none, JValue.num 9, some "number"⟩
    [⟨some "a", JValue.num 1, some "number"⟩] (Or.inl rfl)
